import Mathlib

/-!
Verification development for the tarolas file-storage service (package `server`).

The Go source is shallowly embedded as follows:

* Paths are Lean `String`s.  `goClean` embeds Go's `filepath.Clean` (Unix rules:
  collapse duplicate separators, drop `.` elements, resolve `..` against the
  preceding element, drop `..` elements rooted at `/`); `goJoin` embeds
  `filepath.Join` for two elements (concatenate with a separator, then Clean);
  `goBase` embeds `filepath.Base`.
* The filesystem subtree below `Configuration.RootDirectory` is an inductive
  tree `FsNode` (regular files with byte contents, directories with named
  entries kept in lexical order, mirroring the sorted output of `os.ReadDir`
  and the lexical visit order of `filepath.Walk`).  OS calls (`os.Stat`,
  `os.Remove`, `os.RemoveAll`, `os.Mkdir`, `os.MkdirAll`, `os.OpenFile`,
  `ioutil.ReadDir`, `filepath.Walk`) become pure functions on this tree; an
  absolute path produced by `prepareAbsolutePath` is resolved against the tree
  by stripping the root's cleaned segments.
* Bytes are `Nat`s below 256.  `base64Encode`/`base64Decode` embed the standard
  base64 transfer encoding (`encoding/base64.StdEncoding`).  A Go
  `base64.NewEncoder` that is written to but never `Close`d emits only the
  complete 3-byte groups; `base64EncodeGroups` embeds exactly that behaviour
  (the final 1- or 2-byte block stays in the encoder's buffer).
* Fallible engine operations return `Except ErrorDto α` together with the new
  filesystem state where they mutate it; `ErrorDto` and the error table mirror
  `errors.go` verbatim.
-/

/-! ## Definitions: the path resolver (`utils.go`, `filepath` on Unix) -/

/-- Configuration mirrors the `Configuration` struct (`config.go`); only the
root directory is relevant to the storage engine. -/
structure Configuration where
  RootDirectory : String

/-- A path segment: the characters between two separators. -/
abbrev Seg := List Char

/-- Whether a path (as a character list) is rooted, i.e. begins with `/`. -/
def isRooted : List Char → Bool
  | [] => false
  | c :: _ => c == '/'

/-- Split a character list on `/`.  `splitSegs "/a//b".data = ["", "a", "", "b"]`
(as character lists); the result is never empty. -/
def splitSegs : List Char → List Seg
  | [] => [[]]
  | c :: cs =>
    if c = '/' then [] :: splitSegs cs
    else
      match splitSegs cs with
      | [] => [[c]]
      | s :: ss => (c :: s) :: ss

/-- One element of the processing loop of Go's `filepath.Clean` (Unix), acting
on the stack of retained segments (most recent first).  Empty and `.` elements
are dropped; `..` pops a retained non-`..` element, is itself retained when the
path is not rooted and nothing can be popped, and is dropped at the root. -/
def stepSeg (rooted : Bool) (out : List Seg) (seg : Seg) : List Seg :=
  if seg = [] ∨ seg = ['.'] then out
  else if seg = ['.', '.'] then
    match out with
    | [] => if rooted then [] else [['.', '.']]
    | top :: out' => if top = ['.', '.'] then ['.', '.'] :: top :: out' else out'
  else seg :: out

/-- The element-processing loop of Go's `filepath.Clean`, left to right over
the split segments. -/
def cleanStack (rooted : Bool) : List Seg → List Seg → List Seg
  | out, [] => out
  | out, seg :: rest => cleanStack rooted (stepSeg rooted out seg) rest

/-- The segments `filepath.Clean` retains, in path order. -/
def cleanSegs (rooted : Bool) (segs : List Seg) : List Seg :=
  (cleanStack rooted [] segs).reverse

/-- Render segments back to characters, separated by `/`. -/
def joinSegs : List Seg → List Char
  | [] => []
  | [s] => s
  | s :: s' :: rest => s ++ '/' :: joinSegs (s' :: rest)

/-- Embedding of Go's `filepath.Clean` on Unix: split on separators, process
the elements (`cleanStack`), re-render; a rooted path keeps its leading `/`,
an empty result becomes `.`. -/
def goClean (s : String) : String :=
  let segs := cleanSegs (isRooted s.data) (splitSegs s.data)
  if isRooted s.data then String.mk ('/' :: joinSegs segs)
  else if segs = [] then "." else String.mk (joinSegs segs)

/-- Embedding of Go's `filepath.Join` for two elements: empty elements are
skipped, the rest are joined with `/` and the result is Cleaned. -/
def goJoin (a b : String) : String :=
  if a = "" then (if b = "" then "" else goClean b)
  else goClean (a ++ "/" ++ b)

/-- Embedding of Go's `filepath.Base`: the last element of the path after
trailing separators are removed; `/` for all-separator paths, `.` for the
empty path. -/
def goBase (p : String) : String :=
  if p = "" then "."
  else
    match ((splitSegs p.data).filter (fun s => s ≠ [])).getLast? with
    | some s => String.mk s
    | none => if isRooted p.data then "/" else "."

/-- `prepareAbsolutePath` (`utils.go`): prepend the root directory to the
cleaned client name: `filepath.Join(cfg.RootDirectory, filepath.Clean(name))`. -/
def prepareAbsolutePath (cfg : Configuration) (name : String) : String :=
  goJoin cfg.RootDirectory (goClean name)

/-- The cleaned segments of a path: what the path denotes on the filesystem,
up to lexical normalization. -/
def cleanedSegs (p : String) : List Seg :=
  cleanSegs (isRooted p.data) (splitSegs p.data)

/-- `p` lexically denotes `root` itself or a location in `root`'s subtree:
both are rooted and `root`'s cleaned segments are a prefix of `p`'s. -/
def isDescendantOrEqual (root p : String) : Bool :=
  isRooted p.data && isRooted root.data &&
    (cleanedSegs root).isPrefixOf (cleanedSegs p)

/-- A plain segment: not empty, not `.`, not `..` — the only kind of segment
`Clean` ever keeps in a rooted path. -/
def plainSeg (s : Seg) : Prop := s ≠ [] ∧ s ≠ ['.'] ∧ s ≠ ['.', '.']

/-- A well-formed directory-entry basename: nonempty, not `.` or `..`, and
containing no separator — the only names a real filesystem directory can hold. -/
def validEntryName (s : String) : Bool :=
  s != "" && s != "." && s != ".." && s.data.all (fun ch => ch != '/')

/-- Resolution of an absolute path against the model tree rooted at
`cfg.RootDirectory`: the path's location relative to the root, if the path
lies in the root's subtree. -/
def resolvePath (cfg : Configuration) (p : String) : Option (List String) :=
  if (cleanedSegs cfg.RootDirectory).isPrefixOf (cleanedSegs p) then
    some (((cleanedSegs p).drop (cleanedSegs cfg.RootDirectory).length).map String.mk)
  else none

/-! ## Definitions: the base64 transfer encoding (`encoding/base64.StdEncoding`) -/

/-- The standard base64 alphabet. -/
def base64Alphabet : List Char :=
  "ABCDEFGHIJKLMNOPQRSTUVWXYZabcdefghijklmnopqrstuvwxyz0123456789+/".data

/-- The alphabet character of a 6-bit value. -/
def alphaChar (v : Nat) : Char := base64Alphabet.getD v '?'

/-- The 6-bit value of an alphabet character. -/
def deChar (c : Char) : Nat := base64Alphabet.indexOf c

/-- Standard base64 encoding of a byte sequence, with a `=`-padded final
block: what `base64.StdEncoding` produces for a complete input (an encoder
that is written and then properly Closed). -/
def base64Encode : List Nat → List Char
  | b0 :: b1 :: b2 :: rest =>
    alphaChar (b0 / 4) :: alphaChar ((b0 % 4) * 16 + b1 / 16) ::
      alphaChar ((b1 % 16) * 4 + b2 / 64) :: alphaChar (b2 % 64) :: base64Encode rest
  | [b0, b1] =>
    [alphaChar (b0 / 4), alphaChar ((b0 % 4) * 16 + b1 / 16), alphaChar ((b1 % 16) * 4), '=']
  | [b0] => [alphaChar (b0 / 4), alphaChar ((b0 % 4) * 16), '=', '=']
  | [] => []

/-- Standard base64 decoding of an encoded stream (`base64.NewDecoder`):
4-character blocks become 3 bytes, a `=`-padded final block 1 or 2 bytes. -/
def base64Decode : List Char → List Nat
  | c0 :: c1 :: c2 :: c3 :: rest =>
    if c2 = '=' then [deChar c0 * 4 + deChar c1 / 16]
    else if c3 = '=' then
      [deChar c0 * 4 + deChar c1 / 16, (deChar c1 % 16) * 16 + deChar c2 / 4]
    else
      (deChar c0 * 4 + deChar c1 / 16) :: ((deChar c1 % 16) * 16 + deChar c2 / 4) ::
        ((deChar c2 % 4) * 64 + deChar c3) :: base64Decode rest
  | _ => []

/-- What a Go `base64.NewEncoder` emits when it is written to by `io.Copy` /
`io.CopyN` but never Closed: only the complete 3-byte groups are encoded; a
final block of 1 or 2 bytes stays in the encoder's buffer and is lost. -/
def base64EncodeGroups : List Nat → List Char
  | b0 :: b1 :: b2 :: rest =>
    alphaChar (b0 / 4) :: alphaChar ((b0 % 4) * 16 + b1 / 16) ::
      alphaChar ((b1 % 16) * 4 + b2 / 64) :: alphaChar (b2 % 64) :: base64EncodeGroups rest
  | _ => []

/-! ## Definitions: the result and error model (`file.go`, `directory.go`, `errors.go`) -/

/-- File mirrors the `File` struct (`file.go`): optional name, byte size,
checksum and existence flag (pointer fields in Go, `Option` here). -/
structure File where
  Name : Option String
  Size : Option Nat
  Checksum : Option String
  Exists : Option Bool
deriving DecidableEq

/-- Directory mirrors the `Directory` struct (`directory.go`): a name and the
child directories and files. -/
inductive Directory where
  | mk (Name : String) (Directories : List Directory) (Files : List File)

/-- The root symbol `/` (`directory.go`). -/
def RootSymbol : String := "/"

/-- ErrorDto mirrors the `ErrorDto` struct (`errors.go`). -/
structure ErrorDto where
  Status : String
  Code : String
  Title : String
  Detail : String
deriving DecidableEq

def errMsgCheckServerLogForDetails : String := "check server log for details"

def errReadingDirectoryContentFailed : ErrorDto :=
  ⟨"400", "10147", "reading directory content failed", ""⟩

def errDirectoryAlreadyExists : ErrorDto := ⟨"400", "10237", "directory already exists", ""⟩

def errCreatingDirectoryFailed : ErrorDto := ⟨"400", "10152", "creating directory failed", ""⟩

def errCreatingDirectoriesFailed : ErrorDto := ⟨"400", "10141", "creating directories failed", ""⟩

def errDeletingDirectoryFailed : ErrorDto := ⟨"400", "10371", "deleting directory failed", ""⟩

def errDeletingFileFailed : ErrorDto := ⟨"400", "10923", "deleting file failed", ""⟩

def errOpeningFileForWritingFailed : ErrorDto := ⟨"400", "10747", "opening file for writing failed", ""⟩

def errOpeningFileForReadingFailed : ErrorDto := ⟨"400", "10352", "opening file for reading failed", ""⟩

def errRetrievingFileInfoFailed : ErrorDto := ⟨"400", "10489", "retrieving file info failed", ""⟩

def errWritingFileFailed : ErrorDto := ⟨"400", "10451", "writing file failed", ""⟩

def errReadingFileFailed : ErrorDto := ⟨"400", "10455", "reading file failed", ""⟩

def errSeekingFileFailed : ErrorDto := ⟨"400", "10458", "seeking file failed", ""⟩

def errFileNotFound : ErrorDto := ⟨"400", "10938", "file not found", ""⟩

def errNotAFile : ErrorDto := ⟨"400", "10462", "not a file", ""⟩

def errInvalidParameterValue : ErrorDto := ⟨"400", "10901", "invalid parameter value", ""⟩

def errWalkingDirectoryTreeFailed : ErrorDto := ⟨"400", "10177", "walking directory tree failed", ""⟩

/-- `errorDto` (`errors.go`): copy of a table entry with a per-occurrence
detail. -/
def errorDto (e : ErrorDto) (detail : String) : ErrorDto :=
  { Status := e.Status, Code := e.Code, Title := e.Title, Detail := detail }

/-! ## Definitions: the filesystem model -/

/-- The filesystem subtree stored beneath the root directory: regular files
with byte contents (bytes are `Nat`s below 256) and directories with named
entries.  Entries are kept in lexical name order, matching the sorted
listings of `os.ReadDir` / `ioutil.ReadDir` and the lexical visit order of
`filepath.Walk`. -/
inductive FsNode where
  | file (content : List Nat)
  | dir (entries : List (String × FsNode))

def findEntry (nm : String) : List (String × FsNode) → Option FsNode
  | [] => none
  | (n, node) :: rest => if n = nm then some node else findEntry nm rest

def eraseEntry (nm : String) : List (String × FsNode) → List (String × FsNode)
  | [] => []
  | (n, node) :: rest => if n = nm then rest else (n, node) :: eraseEntry nm rest

def replaceEntry (nm : String) (new : FsNode) : List (String × FsNode) → List (String × FsNode)
  | [] => []
  | (n, node) :: rest =>
    if n = nm then (n, new) :: rest else (n, node) :: replaceEntry nm new rest

def insertEntry (nm : String) (new : FsNode) : List (String × FsNode) → List (String × FsNode)
  | [] => [(nm, new)]
  | (n, node) :: rest =>
    if nm < n then (nm, new) :: (n, node) :: rest else (n, node) :: insertEntry nm new rest

/-- Resolve a relative segment path in the tree. -/
def fsLookup : FsNode → List String → Option FsNode
  | node, [] => some node
  | node, s :: rest =>
    match node with
    | .file _ => none
    | .dir es =>
      match findEntry s es with
      | some child => fsLookup child rest
      | none => none

/-- `os.Remove` succeeds only on a file or an empty directory. -/
def removeOk : FsNode → Bool
  | .file _ => true
  | .dir es => es.isEmpty

/-- `os.Remove`: remove the named file or empty directory; `none` is the error
case (target missing, target a non-empty directory, or path crossing a
non-directory).  The tree root itself cannot be removed this way. -/
def fsRemove : FsNode → List String → Option FsNode
  | _, [] => none
  | node, [s] =>
    match node with
    | .file _ => none
    | .dir es =>
      match findEntry s es with
      | some child => if removeOk child then some (.dir (eraseEntry s es)) else none
      | none => none
  | node, s :: s' :: rest =>
    match node with
    | .file _ => none
    | .dir es =>
      match findEntry s es with
      | some child =>
        match fsRemove child (s' :: rest) with
        | some child' => some (.dir (replaceEntry s child' es))
        | none => none
      | none => none

/-- `os.RemoveAll`: remove the named subtree; removing an absent path is a
no-op success.  (`none` only for the unused empty path.) -/
def fsRemoveAll : FsNode → List String → Option FsNode
  | _, [] => none
  | node, [s] =>
    match node with
    | .file c => some (.file c)
    | .dir es => some (.dir (eraseEntry s es))
  | node, s :: s' :: rest =>
    match node with
    | .file c => some (.file c)
    | .dir es =>
      match findEntry s es with
      | some child =>
        match fsRemoveAll child (s' :: rest) with
        | some child' => some (.dir (replaceEntry s child' es))
        | none => none
      | none => some (.dir es)

/-- `os.MkdirAll`: create every missing directory on the path; fails when a
regular file is in the way. -/
def fsMkdirAll : FsNode → List String → Option FsNode
  | .file _, _ => none
  | .dir es, [] => some (.dir es)
  | .dir es, s :: rest =>
    match findEntry s es with
    | some child =>
      match fsMkdirAll child rest with
      | some child' => some (.dir (replaceEntry s child' es))
      | none => none
    | none =>
      match fsMkdirAll (.dir []) rest with
      | some child' => some (.dir (insertEntry s child' es))
      | none => none

/-- Outcome of `os.Mkdir`: success, `EEXIST` (reported by `os.IsExist`), or
any other failure. -/
inductive MkdirResult where
  | ok (fs : FsNode)
  | already
  | failed

/-- `os.Mkdir`: create exactly one directory level; the parent must exist. -/
def fsMkdir : FsNode → List String → MkdirResult
  | _, [] => .already
  | .file _, _ :: _ => .failed
  | .dir es, [s] =>
    match findEntry s es with
    | some _ => .already
    | none => .ok (.dir (insertEntry s (.dir []) es))
  | .dir es, s :: rest@(_ :: _) =>
    match findEntry s es with
    | some child =>
      match fsMkdir child rest with
      | .ok child' => .ok (.dir (replaceEntry s child' es))
      | r => r
    | none => .failed

/-- `os.OpenFile(path, O_CREATE|O_WRONLY, ...)` followed by writing `data`
from offset 0 and a final `Stat`: the file is created when absent; an existing
file is NOT truncated, so old bytes beyond the written prefix survive.
Returns the new tree and the file's final size; `none` is the open error case
(target is a directory, or the parent path is missing or not a directory). -/
def fsOpenWrite (data : List Nat) : FsNode → List String → Option (FsNode × Nat)
  | _, [] => none
  | node, [s] =>
    match node with
    | .file _ => none
    | .dir es =>
      match findEntry s es with
      | some (.dir _) => none
      | some (.file old) =>
        let c := data ++ old.drop data.length
        some (.dir (replaceEntry s (.file c) es), c.length)
      | none => some (.dir (insertEntry s (.file data) es), data.length)
  | node, s :: s' :: rest =>
    match node with
    | .file _ => none
    | .dir es =>
      match findEntry s es with
      | some child =>
        match fsOpenWrite data child (s' :: rest) with
        | some (child', sz) => some (.dir (replaceEntry s child' es), sz)
        | none => none
      | none => none

/-- `ioutil.ReadDir` / `os.ReadDir`: the entries of the named directory in
lexical order (the model keeps them sorted); errors when the path is not a
directory. -/
def fsReadDir (fs : FsNode) (segs : List String) : Option (List (String × FsNode)) :=
  match fsLookup fs segs with
  | some (.dir es) => some es
  | _ => none

/-! ## Definitions: the file and directory engines (`file.go`, `directory.go`) -/

/-- `net/http.DetectContentType` is an external-library sniffing heuristic
that none of the verified properties depend on; the model returns its
no-match default for every buffer. -/
def detectContentType (_ : List Nat) : String := "application/octet-stream"

/-- `fileWrite` (`file.go`): open the target with `O_CREATE|O_WRONLY` — NO
`O_TRUNC` — then decode the base64 request body into it from offset 0, stat,
and return the file's final size.  An existing file is not truncated, so old
bytes beyond the written prefix survive (`fsOpenWrite`).  The body decoder is
total in the model, so the copy step never fails; a prepared path outside the
root subtree cannot be produced from a transport-validated name and is mapped
to the open-failure branch. -/
def fileWrite (cfg : Configuration) (fs : FsNode) (name : String) (body : List Char) :
    FsNode × Except ErrorDto File :=
  let fullName := prepareAbsolutePath cfg name
  match resolvePath cfg fullName with
  | none => (fs, .error (errorDto errOpeningFileForWritingFailed name))
  | some segs =>
    match fsOpenWrite (base64Decode body) fs segs with
    | some (fs', size) =>
      (fs', .ok { Name := some name, Size := some size, Checksum := none, Exists := none })
    | none => (fs, .error (errorDto errOpeningFileForWritingFailed name))

/-- `readFile` (`file.go`): bounded partial read.  Stat the file
(`FileNotFound` when absent, `NotAFile` for a directory), validate
`0 <= offset <= fileSize` and `0 < size <= fileSize` (else
`InvalidParameterValue` with the offending parameter as detail), clamp
`offset+size` to the file end, then seek to `offset` and `io.CopyN` exactly
the clamped size through a base64 encoder into the response.  The encoder is
never Closed, so only the window's complete 3-byte groups reach the client
(`base64EncodeGroups`).  The result is the emitted character stream. -/
def readFile (cfg : Configuration) (fs : FsNode) (name : String) (offset size : Int) :
    Except ErrorDto (List Char) :=
  let fullName := prepareAbsolutePath cfg name
  match resolvePath cfg fullName with
  | none => .error (errorDto errFileNotFound name)
  | some segs =>
    match fsLookup fs segs with
    | none => .error (errorDto errFileNotFound name)
    | some (.dir _) => .error (errorDto errNotAFile name)
    | some (.file c) =>
      if offset < 0 ∨ offset > (c.length : Int) then
        .error (errorDto errInvalidParameterValue ("offset (" ++ toString offset ++ ")"))
      else if size ≤ 0 ∨ size > (c.length : Int) then
        .error (errorDto errInvalidParameterValue ("size (" ++ toString size ++ ")"))
      else
        let size' := if offset + size > (c.length : Int) then (c.length : Int) - offset else size
        .ok (base64EncodeGroups ((c.drop offset.toNat).take size'.toNat))

/-- `fileExists` (`file.go`): stat; a directory is `NotAFile`, an absent path
is reported as `{exists: false}` with no error, a regular file returns its
size with `{exists: true}`. -/
def fileExists (cfg : Configuration) (fs : FsNode) (name : String) : Except ErrorDto File :=
  let fullName := prepareAbsolutePath cfg name
  match resolvePath cfg fullName with
  | none => .error (errorDto errRetrievingFileInfoFailed name)
  | some segs =>
    match fsLookup fs segs with
    | some (.dir _) => .error (errorDto errNotAFile name)
    | some (.file c) =>
      .ok { Name := some name, Size := some c.length, Checksum := none, Exists := some true }
    | none => .ok { Name := some name, Size := none, Checksum := none, Exists := some false }

/-- `writeSharedFileContent` (`file.go`): open (`FileNotFound` when absent),
stat (`NotAFile` for a directory), `Read` up to 512 leading bytes into a
zeroed buffer for content-type sniffing — a read that fails with `EOF` on an
empty file, surfacing `ReadingFileFailed` — then seek back to the start and
stream the complete raw bytes.  On success the result is the sniffed content
type and the emitted raw bytes. -/
def writeSharedFileContent (cfg : Configuration) (fs : FsNode) (name : String) :
    Except ErrorDto (String × List Nat) :=
  let fullName := prepareAbsolutePath cfg name
  match resolvePath cfg fullName with
  | none => .error (errorDto errOpeningFileForReadingFailed name)
  | some segs =>
    match fsLookup fs segs with
    | none => .error (errorDto errFileNotFound name)
    | some (.dir _) => .error (errorDto errNotAFile name)
    | some (.file c) =>
      if c.isEmpty then .error (errorDto errReadingFileFailed name)
      else
        let buffer := c.take 512 ++ List.replicate (512 - c.length) 0
        .ok (detectContentType buffer, c)

/-- The `AddDirectory` calls `directoryContent` makes, in entry order: one
child `Directory` value per subdirectory, holding only its name. -/
def contentDirs : List (String × FsNode) → List Directory
  | [] => []
  | (n, .dir _) :: rest => .mk n [] [] :: contentDirs rest
  | (_, .file _) :: rest => contentDirs rest

/-- The `AddFile` calls `directoryContent` makes, in entry order: one child
`File` value per regular file, holding its name and size. -/
def contentFiles : List (String × FsNode) → List File
  | [] => []
  | (n, .file c) :: rest =>
    { Name := some n, Size := some c.length, Checksum := none, Exists := none } :: contentFiles rest
  | (_, .dir _) :: rest => contentFiles rest

/-- `directoryContent` (`directory.go`): list immediate children only.  The
returned directory's name is the root symbol when the resolved path equals
the root directory, else the filesystem basename; `ReadFailed` when the path
cannot be read as a directory. -/
def directoryContent (cfg : Configuration) (fs : FsNode) (name : String) :
    Except ErrorDto Directory :=
  let fullName := prepareAbsolutePath cfg name
  let rootName := if fullName = cfg.RootDirectory then RootSymbol else goBase fullName
  match resolvePath cfg fullName with
  | none => .error (errorDto errReadingDirectoryContentFailed name)
  | some segs =>
    match fsLookup fs segs with
    | some (.dir es) => .ok (.mk rootName (contentDirs es) (contentFiles es))
    | _ => .error (errorDto errReadingDirectoryContentFailed name)

/-- The directory paths `filepath.Walk` visits strictly below the start node,
in visit order (pre-order, directory entries in lexical order), as segment
paths relative to the start.  Files are visited but never emitted. -/
def walkDirs : FsNode → List String → List (List String)
  | .file _, _ => []
  | .dir [], _ => []
  | .dir ((_, .file _) :: rest), pre => walkDirs (.dir rest) pre
  | .dir ((n, .dir ces) :: rest), pre =>
    ((pre ++ [n]) :: walkDirs (.dir ces) (pre ++ [n])) ++ walkDirs (.dir rest) pre

/-- Render a relative segment path the way `directoryList` emits it via
`strings.TrimPrefix(path, fullName)`: the separator plus the segments joined
with `/`. -/
def renderRel (segs : List String) : String :=
  "/" ++ String.intercalate "/" segs

/-- `directoryList` (`directory.go`): `"/"` (the start directory itself,
appended before the walk) followed by the relative paths of all directories
strictly below the resolved start, in walk order; a failed walk (start
missing) reports `WalkFailed` wrapping the generic check-logs detail. -/
def directoryList (cfg : Configuration) (fs : FsNode) (name : String) :
    Except ErrorDto (List String) :=
  let fullName := prepareAbsolutePath cfg name
  match resolvePath cfg fullName with
  | none => .error (errorDto errWalkingDirectoryTreeFailed errMsgCheckServerLogForDetails)
  | some segs =>
    match fsLookup fs segs with
    | none => .error (errorDto errWalkingDirectoryTreeFailed errMsgCheckServerLogForDetails)
    | some node => .ok ("/" :: (walkDirs node []).map renderRel)

/-- `createDirectory` (`directory.go`): `all=true` uses `os.MkdirAll` and
names the result `filepath.Base(name)`; `all=false` uses `os.Mkdir`, reports
`AlreadyExists` via `os.IsExist`, and names the result with the raw client
`name`. -/
def createDirectory (cfg : Configuration) (fs : FsNode) (name : String) (all : Bool) :
    FsNode × Except ErrorDto Directory :=
  let fullName := prepareAbsolutePath cfg name
  match resolvePath cfg fullName with
  | none =>
    (fs, .error (errorDto (if all then errCreatingDirectoriesFailed else errCreatingDirectoryFailed) name))
  | some segs =>
    if all then
      match fsMkdirAll fs segs with
      | some fs' => (fs', .ok (.mk (goBase name) [] []))
      | none => (fs, .error (errorDto errCreatingDirectoriesFailed name))
    else
      match fsMkdir fs segs with
      | .ok fs' => (fs', .ok (.mk name [] []))
      | .already => (fs, .error (errorDto errDirectoryAlreadyExists name))
      | .failed => (fs, .error (errorDto errCreatingDirectoryFailed name))

/-- The child-removal loop of `deleteDirectory` over the `ioutil.ReadDir`
snapshot.  Each child's removal path is `prepareAbsolutePath(cfg,
fileInfo.Name())` — the bare basename resolved against the ROOT directory,
exactly as the source does, NOT against the directory being deleted.
Directory children are removed with `os.RemoveAll`, file children with
`os.Remove`; the first failure aborts with the failing child's full path as
the error detail. -/
def deleteChildrenLoop (cfg : Configuration) :
    FsNode → List (String × FsNode) → FsNode × Option ErrorDto
  | fs, [] => (fs, none)
  | fs, (cname, cnode) :: rest =>
    let fileName := prepareAbsolutePath cfg cname
    match cnode with
    | .dir _ =>
      match resolvePath cfg fileName with
      | some segs =>
        match fsRemoveAll fs segs with
        | some fs' => deleteChildrenLoop cfg fs' rest
        | none => (fs, some (errorDto errDeletingDirectoryFailed fileName))
      | none => (fs, some (errorDto errDeletingDirectoryFailed fileName))
    | .file _ =>
      match resolvePath cfg fileName with
      | some segs =>
        match fsRemove fs segs with
        | some fs' => deleteChildrenLoop cfg fs' rest
        | none => (fs, some (errorDto errDeletingFileFailed fileName))
      | none => (fs, some (errorDto errDeletingFileFailed fileName))

/-- `deleteDirectory` (`directory.go`): with `all=true` first read the target
directory's entries (`ReadFailed` if that fails) and remove each child via
`deleteChildrenLoop`; then, unless the resolved path equals the root
directory — which is returned as a Directory named `/` and never removed —
`os.Remove` the now-supposedly-empty target itself. -/
def deleteDirectory (cfg : Configuration) (fs : FsNode) (name : String) (all : Bool) :
    FsNode × Except ErrorDto Directory :=
  let fullName := prepareAbsolutePath cfg name
  let afterChildren : FsNode × Option ErrorDto :=
    if all then
      match resolvePath cfg fullName with
      | some segs =>
        match fsReadDir fs segs with
        | some fileInfos => deleteChildrenLoop cfg fs fileInfos
        | none => (fs, some (errorDto errReadingDirectoryContentFailed name))
      | none => (fs, some (errorDto errReadingDirectoryContentFailed name))
    else (fs, none)
  match afterChildren with
  | (fs', some e) => (fs', .error e)
  | (fs', none) =>
    if fullName = cfg.RootDirectory then (fs', .ok (.mk RootSymbol [] []))
    else
      match resolvePath cfg fullName with
      | some segs =>
        match fsRemove fs' segs with
        | some fs'' => (fs'', .ok (.mk (goBase fullName) [] []))
        | none => (fs', .error (errorDto errDeletingDirectoryFailed name))
      | none => (fs', .error (errorDto errDeletingDirectoryFailed name))

/-- Whether an engine result is the `InvalidParameterValue` error (application
code 10901). -/
def isInvalidParameterError {α : Type} : Except ErrorDto α → Bool
  | .error e => e.Code == "10901"
  | .ok _ => false

/-! ## Theorems: embedding fidelity on concrete vectors -/

/-- Fidelity of the `filepath.Clean` / `Join` / `Base` embedding, checked
against the behaviour documented for Go's path/filepath package on Unix. -/
theorem goClean_fidelity :
    goClean "" = "." ∧ goClean "/" = "/" ∧ goClean "/.." = "/" ∧ goClean ".." = ".."
    ∧ goClean "../../a" = "../../a" ∧ goClean "a/../.." = ".."
    ∧ goClean "/a/b/../c//" = "/a/c" ∧ goClean "./a/" = "a" ∧ goClean "a/.." = "."
    ∧ goJoin "/data" ".." = "/" ∧ goJoin "/data" "/x" = "/data/x" ∧ goJoin "" "x" = "x"
    ∧ goBase "/a/b" = "b" ∧ goBase "/" = "/" ∧ goBase "" = "." ∧ goBase "a/.." = ".."
    ∧ goBase "a//" = "a" :=
  ⟨rfl, rfl, rfl, rfl, rfl, rfl, rfl, rfl, rfl, rfl, rfl, rfl, rfl, rfl, rfl, rfl, rfl⟩

/-- Fidelity of the path resolver on concrete names. -/
theorem prepareAbsolutePath_fidelity :
    prepareAbsolutePath ⟨"/data"⟩ "/sub" = "/data/sub"
    ∧ prepareAbsolutePath ⟨"/data"⟩ "x" = "/data/x"
    ∧ prepareAbsolutePath ⟨"/data"⟩ "/a/../../.." = "/data"
    ∧ isDescendantOrEqual "/data" "/data" = true
    ∧ isDescendantOrEqual "/data" "/data/x" = true
    ∧ isDescendantOrEqual "/data" "/" = false :=
  ⟨rfl, rfl, rfl, rfl, rfl, rfl⟩

/-- Fidelity of the base64 embedding on known vectors (`base64("hi") = "aGk="`,
`base64("xy") = "eHk="`, `base64("hi!") = "aGkh"`), and the encoder-without-
Close behaviour of complete groups only. -/
theorem base64_fidelity :
    base64Encode [104, 105] = "aGk=".data ∧ base64Decode "aGk=".data = [104, 105]
    ∧ base64Encode [120, 121] = "eHk=".data ∧ base64Decode "eHk=".data = [120, 121]
    ∧ base64Encode [104, 105, 33] = "aGkh".data ∧ base64Decode "aGkh".data = [104, 105, 33]
    ∧ base64EncodeGroups [104, 105] = []
    ∧ base64EncodeGroups [0, 1, 2, 3, 4] = base64Encode [0, 1, 2] :=
  ⟨rfl, rfl, rfl, rfl, rfl, rfl, rfl, rfl⟩

/-! ## Theorems: properties of the path resolver -/

theorem splitSegs_ne_nil (l : List Char) : splitSegs l ≠ [] := by
  cases l with
  | nil => simp [splitSegs]
  | cons c cs =>
    simp only [splitSegs]
    split
    · simp
    · split <;> simp

theorem mem_splitSegs_noSlash (l : List Char) : ∀ s ∈ splitSegs l, '/' ∉ s := by
  induction l with
  | nil => intro s hs; simp [splitSegs] at hs; simp [hs]
  | cons c cs ih =>
    intro s hs
    by_cases hc : c = '/'
    · rw [show splitSegs (c :: cs) = [] :: splitSegs cs from by simp [splitSegs, hc]] at hs
      rcases List.mem_cons.mp hs with h | h
      · simp [h]
      · exact ih s h
    · cases hcs : splitSegs cs with
      | nil => exact absurd hcs (splitSegs_ne_nil cs)
      | cons t ts =>
        rw [show splitSegs (c :: cs) = (c :: t) :: ts from by
          simp [splitSegs, hc, hcs]] at hs
        rcases List.mem_cons.mp hs with h | h
        · subst h
          intro hmem
          rcases List.mem_cons.mp hmem with h | h
          · exact hc h.symm
          · exact ih t (hcs ▸ List.mem_cons_self ..) h
        · exact ih s (hcs ▸ List.mem_cons_of_mem _ h)

theorem splitSegs_append (a b : List Char) :
    splitSegs (a ++ '/' :: b) = splitSegs a ++ splitSegs b := by
  induction a with
  | nil => simp [splitSegs]
  | cons c cs ih =>
    by_cases hc : c = '/'
    · simp [splitSegs, hc, ih]
    · cases hcs : splitSegs cs with
      | nil => exact absurd hcs (splitSegs_ne_nil cs)
      | cons t ts =>
        rw [List.cons_append]
        rw [show splitSegs (c :: (cs ++ '/' :: b)) =
              match splitSegs (cs ++ '/' :: b) with
              | [] => [[c]]
              | s :: ss => (c :: s) :: ss from by simp [splitSegs, hc]]
        rw [show splitSegs (c :: cs) =
              match splitSegs cs with
              | [] => [[c]]
              | s :: ss => (c :: s) :: ss from by simp [splitSegs, hc]]
        rw [ih, hcs]
        simp

theorem splitSegs_of_noSlash (l : List Char) (h : '/' ∉ l) : splitSegs l = [l] := by
  induction l with
  | nil => rfl
  | cons c cs ih =>
    have hc : ¬(c = '/') := fun e => h (e ▸ List.mem_cons_self ..)
    have hcs : '/' ∉ cs := fun e => h (List.mem_cons_of_mem _ e)
    rw [show splitSegs (c :: cs) =
          match splitSegs cs with
          | [] => [[c]]
          | s :: ss => (c :: s) :: ss from by simp [splitSegs, hc]]
    rw [ih hcs]

theorem splitSegs_joinSegs (S : List Seg) (h : ∀ s ∈ S, '/' ∉ s) (hne : S ≠ []) :
    splitSegs (joinSegs S) = S := by
  induction S with
  | nil => exact absurd rfl hne
  | cons s rest ih =>
    cases rest with
    | nil => exact splitSegs_of_noSlash s (h s (List.mem_cons_self ..))
    | cons s' rest' =>
      rw [show joinSegs (s :: s' :: rest') = s ++ '/' :: joinSegs (s' :: rest') from rfl]
      rw [splitSegs_append, splitSegs_of_noSlash s (h s (List.mem_cons_self ..))]
      rw [ih (fun t ht => h t (List.mem_cons_of_mem _ ht)) (by simp)]
      rfl

theorem cleanStack_append (r : Bool) (xs ys : List Seg) :
    ∀ out, cleanStack r out (xs ++ ys) = cleanStack r (cleanStack r out xs) ys := by
  induction xs with
  | nil => intro out; rfl
  | cons seg rest ih => intro out; simp only [List.cons_append, cleanStack]; exact ih _

theorem stepSeg_of_plain (r : Bool) (out : List Seg) (seg : Seg) (h : plainSeg seg) :
    stepSeg r out seg = seg :: out := by
  obtain ⟨h1, h2, h3⟩ := h
  simp [stepSeg, h1, h2, h3]

theorem cleanStack_of_plain (r : Bool) (xs : List Seg) (h : ∀ s ∈ xs, plainSeg s) :
    ∀ out, cleanStack r out xs = xs.reverse ++ out := by
  induction xs with
  | nil => intro out; rfl
  | cons seg rest ih =>
    intro out
    simp only [cleanStack]
    rw [stepSeg_of_plain r out seg (h seg (List.mem_cons_self ..)),
      ih (fun t ht => h t (List.mem_cons_of_mem _ ht))]
    simp

theorem stepSeg_plain_of_rooted (out : List Seg) (seg : Seg)
    (hout : ∀ s ∈ out, plainSeg s) : ∀ s ∈ stepSeg true out seg, plainSeg s := by
  intro s hs
  by_cases h1 : seg = [] ∨ seg = ['.']
  · rw [stepSeg.eq_def, if_pos h1] at hs; exact hout s hs
  · by_cases h2 : seg = ['.', '.']
    · rw [stepSeg.eq_def, if_neg h1, if_pos h2] at hs
      cases out with
      | nil => simp at hs
      | cons top out' =>
        have htop : plainSeg top := hout top (List.mem_cons_self ..)
        dsimp only at hs
        rw [if_neg htop.2.2] at hs
        exact hout s (List.mem_cons_of_mem _ hs)
    · rw [stepSeg.eq_def, if_neg h1, if_neg h2] at hs
      rcases List.mem_cons.mp hs with h | h
      · subst h; exact ⟨fun e => h1 (Or.inl e), fun e => h1 (Or.inr e), h2⟩
      · exact hout s h

theorem cleanStack_plain_of_rooted (xs : List Seg) :
    ∀ out, (∀ s ∈ out, plainSeg s) → ∀ s ∈ cleanStack true out xs, plainSeg s := by
  induction xs with
  | nil => intro out hout s hs; exact hout s hs
  | cons seg rest ih =>
    intro out hout
    simp only [cleanStack]
    exact ih _ (stepSeg_plain_of_rooted out seg hout)

theorem stepSeg_noSlash (r : Bool) (out : List Seg) (seg : Seg)
    (hseg : '/' ∉ seg) (hout : ∀ s ∈ out, '/' ∉ s) : ∀ s ∈ stepSeg r out seg, '/' ∉ s := by
  intro s hs
  by_cases h1 : seg = [] ∨ seg = ['.']
  · rw [stepSeg.eq_def, if_pos h1] at hs; exact hout s hs
  · by_cases h2 : seg = ['.', '.']
    · rw [stepSeg.eq_def, if_neg h1, if_pos h2] at hs
      cases out with
      | nil =>
        cases r with
        | true => simp at hs
        | false => simp at hs; simp [hs]
      | cons top out' =>
        dsimp only at hs
        by_cases h3 : top = ['.', '.']
        · rw [if_pos h3] at hs
          rcases List.mem_cons.mp hs with h | h
          · simp [h]
          · exact hout s h
        · rw [if_neg h3] at hs
          exact hout s (List.mem_cons_of_mem _ hs)
    · rw [stepSeg.eq_def, if_neg h1, if_neg h2] at hs
      rcases List.mem_cons.mp hs with h | h
      · subst h; exact hseg
      · exact hout s h

theorem cleanStack_noSlash (r : Bool) (xs : List Seg) :
    ∀ out, (∀ s ∈ xs, '/' ∉ s) → (∀ s ∈ out, '/' ∉ s) →
      ∀ s ∈ cleanStack r out xs, '/' ∉ s := by
  induction xs with
  | nil => intro out _ hout s hs; exact hout s hs
  | cons seg rest ih =>
    intro out hxs hout
    simp only [cleanStack]
    exact ih _ (fun t ht => hxs t (List.mem_cons_of_mem _ ht))
      (stepSeg_noSlash r out seg (hxs seg (List.mem_cons_self ..)) hout)

theorem cleanedSegs_plain (p : String) (hp : isRooted p.data = true) :
    ∀ s ∈ cleanedSegs p, plainSeg s := by
  intro s hs
  rw [cleanedSegs, hp] at hs
  exact cleanStack_plain_of_rooted _ [] (by simp) s (List.mem_reverse.mp hs)

theorem cleanedSegs_noSlash (p : String) : ∀ s ∈ cleanedSegs p, '/' ∉ s := by
  intro s hs
  rw [cleanedSegs] at hs
  exact cleanStack_noSlash _ _ [] (mem_splitSegs_noSlash p.data) (by simp) s
    (List.mem_reverse.mp hs)

theorem exists_of_isRooted (l : List Char) (h : isRooted l = true) : ∃ t, l = '/' :: t := by
  cases l with
  | nil => exact absurd h (by decide)
  | cons c t =>
    refine ⟨t, ?_⟩
    have : c = '/' := by simpa [isRooted] using h
    rw [this]

theorem cleanedSegs_mk_rooted (F : List Seg) (hp : ∀ s ∈ F, plainSeg s)
    (hs : ∀ s ∈ F, '/' ∉ s) :
    cleanedSegs (String.mk ('/' :: joinSegs F)) = F := by
  cases F with
  | nil => rfl
  | cons f fs =>
    show cleanSegs (isRooted ('/' :: joinSegs (f :: fs)))
        (splitSegs ('/' :: joinSegs (f :: fs))) = f :: fs
    rw [show isRooted ('/' :: joinSegs (f :: fs)) = true from rfl]
    rw [show splitSegs ('/' :: joinSegs (f :: fs))
        = [] :: splitSegs (joinSegs (f :: fs)) from by simp [splitSegs]]
    rw [splitSegs_joinSegs _ hs (by simp)]
    show (cleanStack true [] ([] :: f :: fs)).reverse = f :: fs
    rw [show cleanStack true [] ([] :: f :: fs) = cleanStack true [] (f :: fs) from by
      simp [cleanStack, stepSeg]]
    rw [cleanStack_of_plain true _ hp []]
    simp

theorem goClean_rooted_eq (p : String) (hp : isRooted p.data = true) :
    goClean p = String.mk ('/' :: joinSegs (cleanedSegs p)) := by
  unfold goClean
  rw [hp]
  simp only [if_true]
  rw [show cleanedSegs p = cleanSegs (isRooted p.data) (splitSegs p.data) from rfl, hp]

theorem cleanStack_skipEmpty_plain (out : List Seg) (N : List Seg)
    (hNp : ∀ s ∈ N, plainSeg s) (hNs : ∀ s ∈ N, '/' ∉ s) :
    cleanStack true out ([] :: splitSegs (joinSegs N)) = N.reverse ++ out := by
  cases N with
  | nil => simp [joinSegs, splitSegs, cleanStack, stepSeg]
  | cons f fs =>
    rw [splitSegs_joinSegs _ hNs (by simp)]
    rw [show cleanStack true out ([] :: f :: fs) = cleanStack true out (f :: fs) from by
      simp [cleanStack, stepSeg]]
    exact cleanStack_of_plain true _ hNp out

theorem cleanedSegs_concat (root : String) (N : List Seg)
    (hNp : ∀ s ∈ N, plainSeg s) (hNs : ∀ s ∈ N, '/' ∉ s)
    (hr : isRooted root.data = true) :
    cleanedSegs (root ++ "/" ++ String.mk ('/' :: joinSegs N))
      = cleanedSegs root ++ N := by
  obtain ⟨t, ht⟩ := exists_of_isRooted _ hr
  have hdata : (root ++ "/" ++ String.mk ('/' :: joinSegs N)).data
      = root.data ++ '/' :: ('/' :: joinSegs N) := by
    show (root.data ++ ['/']) ++ ('/' :: joinSegs N) = _
    simp
  have hrooted2 : isRooted (root ++ "/" ++ String.mk ('/' :: joinSegs N)).data = true := by
    rw [hdata, ht]; rfl
  unfold cleanedSegs
  rw [hrooted2, hdata, splitSegs_append,
    show splitSegs ('/' :: joinSegs N) = [] :: splitSegs (joinSegs N) from by simp [splitSegs]]
  unfold cleanSegs
  rw [cleanStack_append, cleanStack_skipEmpty_plain _ N hNp hNs, hr]
  simp

theorem prepare_eq (root name : String) (hr : isRooted root.data = true)
    (hn : isRooted name.data = true) :
    prepareAbsolutePath ⟨root⟩ name
      = String.mk ('/' :: joinSegs (cleanedSegs root ++ cleanedSegs name)) := by
  have hroot_ne : ¬(root = "") := by
    intro e
    rw [e] at hr
    exact absurd hr (by decide)
  obtain ⟨t, ht⟩ := exists_of_isRooted _ hr
  have hdata : (root ++ "/" ++ goClean name).data
      = root.data ++ '/' :: (goClean name).data := by
    show (root.data ++ ['/']) ++ (goClean name).data = _
    simp
  have hrooted2 : isRooted (root ++ "/" ++ goClean name).data = true := by
    rw [hdata, ht]; rfl
  have hsegs : cleanedSegs (root ++ "/" ++ goClean name)
      = cleanedSegs root ++ cleanedSegs name := by
    rw [goClean_rooted_eq name hn]
    exact cleanedSegs_concat root (cleanedSegs name) (cleanedSegs_plain name hn)
      (cleanedSegs_noSlash name) hr
  show goJoin root (goClean name) = _
  unfold goJoin
  rw [if_neg hroot_ne, goClean_rooted_eq _ hrooted2, hsegs]

theorem cleanedSegs_prepare (root name : String) (hr : isRooted root.data = true)
    (hn : isRooted name.data = true) :
    cleanedSegs (prepareAbsolutePath ⟨root⟩ name)
      = cleanedSegs root ++ cleanedSegs name := by
  rw [prepare_eq root name hr hn]
  refine cleanedSegs_mk_rooted _ (fun s hs => ?_) (fun s hs => ?_)
  · rcases List.mem_append.mp hs with h | h
    · exact cleanedSegs_plain root hr s h
    · exact cleanedSegs_plain name hn s h
  · rcases List.mem_append.mp hs with h | h
    · exact cleanedSegs_noSlash root s h
    · exact cleanedSegs_noSlash name s h

theorem isRooted_prepare (root name : String) (hr : isRooted root.data = true)
    (hn : isRooted name.data = true) :
    isRooted (prepareAbsolutePath ⟨root⟩ name).data = true := by
  rw [prepare_eq root name hr hn]
  rfl

theorem validEntryName_plain (c : String) (hv : validEntryName c = true) :
    plainSeg c.data ∧ '/' ∉ c.data := by
  unfold validEntryName at hv
  simp only [Bool.and_eq_true, bne_iff_ne, List.all_eq_true] at hv
  obtain ⟨⟨⟨h1, h2⟩, h3⟩, h4⟩ := hv
  have hmem : '/' ∉ c.data := fun hm => (h4 '/' hm) rfl
  refine ⟨⟨?_, ?_, ?_⟩, hmem⟩
  · intro e
    exact h1 (String.ext e)
  · intro e
    exact h2 (String.ext e)
  · intro e
    exact h3 (String.ext e)

theorem goClean_plainName (c : String) (hplain : plainSeg c.data) (hslash : '/' ∉ c.data) :
    goClean c = c := by
  have hroot : isRooted c.data = false := by
    cases hd : c.data with
    | nil => rfl
    | cons ch t =>
      show (ch == '/') = false
      have hne : ch ≠ '/' := fun e => hslash (by rw [hd, e]; exact List.mem_cons_self ..)
      simpa using hne
  have hstack : cleanSegs false (splitSegs c.data) = [c.data] := by
    rw [splitSegs_of_noSlash c.data hslash]
    unfold cleanSegs
    rw [show cleanStack false [] [c.data] = [c.data] from by
      simp [cleanStack, stepSeg_of_plain _ _ _ hplain]]
    rfl
  unfold goClean
  rw [hroot, hstack]
  simp only [Bool.false_eq_true, if_false]
  rw [if_neg (by simp : ¬([c.data] = ([] : List Seg)))]
  rfl

theorem prepare_basename_eq (root c : String) (hr : isRooted root.data = true)
    (hplain : plainSeg c.data) (hslash : '/' ∉ c.data) :
    prepareAbsolutePath ⟨root⟩ c
      = String.mk ('/' :: joinSegs (cleanedSegs root ++ [c.data])) := by
  have hroot_ne : ¬(root = "") := by
    intro e
    rw [e] at hr
    exact absurd hr (by decide)
  show goJoin root (goClean c) = _
  rw [goClean_plainName c hplain hslash]
  unfold goJoin
  rw [if_neg hroot_ne]
  have hdata : (root ++ "/" ++ c).data = root.data ++ '/' :: c.data := by
    show (root.data ++ ['/']) ++ c.data = _
    simp
  obtain ⟨t, ht⟩ := exists_of_isRooted _ hr
  have hrooted2 : isRooted (root ++ "/" ++ c).data = true := by
    rw [hdata, ht]; rfl
  rw [goClean_rooted_eq _ hrooted2]
  congr 2
  unfold cleanedSegs
  rw [hrooted2, hdata, splitSegs_append, splitSegs_of_noSlash c.data hslash]
  unfold cleanSegs
  rw [cleanStack_append]
  rw [show cleanStack true (cleanStack true [] (splitSegs root.data)) [c.data]
      = c.data :: cleanStack true [] (splitSegs root.data) from by
    simp [cleanStack, stepSeg_of_plain _ _ _ hplain]]
  rw [hr]
  simp

theorem cleanedSegs_prepare_basename (root c : String) (hr : isRooted root.data = true)
    (hplain : plainSeg c.data) (hslash : '/' ∉ c.data) :
    cleanedSegs (prepareAbsolutePath ⟨root⟩ c) = cleanedSegs root ++ [c.data] := by
  rw [prepare_basename_eq root c hr hplain hslash]
  refine cleanedSegs_mk_rooted _ (fun s hs => ?_) (fun s hs => ?_)
  · rcases List.mem_append.mp hs with h | h
    · exact cleanedSegs_plain root hr s h
    · rw [List.mem_singleton.mp h]; exact hplain
  · rcases List.mem_append.mp hs with h | h
    · exact cleanedSegs_noSlash root s h
    · rw [List.mem_singleton.mp h]; exact hslash

theorem prepare_root_slash (root : String) (hr : isRooted root.data = true)
    (hclean : goClean root = root) : prepareAbsolutePath ⟨root⟩ "/" = root := by
  have h : isRooted ("/" : String).data = true := rfl
  rw [prepare_eq root "/" hr h]
  rw [show cleanedSegs "/" = [] from rfl, List.append_nil]
  rw [← goClean_rooted_eq root hr, hclean]

theorem isPrefixOf_append_self (R N : List Seg) : R.isPrefixOf (R ++ N) = true := by
  induction R with
  | nil => simp [List.isPrefixOf]
  | cons a R ih => simp [List.isPrefixOf, ih]

theorem resolvePath_prepare (root name : String) (hr : isRooted root.data = true)
    (hn : isRooted name.data = true) :
    resolvePath ⟨root⟩ (prepareAbsolutePath ⟨root⟩ name)
      = some ((cleanedSegs name).map String.mk) := by
  unfold resolvePath
  dsimp only
  rw [cleanedSegs_prepare root name hr hn]
  rw [if_pos (isPrefixOf_append_self _ _), List.drop_left]

theorem resolvePath_prepare_basename (root c : String) (hr : isRooted root.data = true)
    (hplain : plainSeg c.data) (hslash : '/' ∉ c.data) :
    resolvePath ⟨root⟩ (prepareAbsolutePath ⟨root⟩ c) = some [c] := by
  unfold resolvePath
  dsimp only
  rw [cleanedSegs_prepare_basename root c hr hplain hslash]
  rw [if_pos (isPrefixOf_append_self _ _), List.drop_left]
  rfl

theorem resolvePath_self (root : String) : resolvePath ⟨root⟩ root = some [] := by
  unfold resolvePath
  dsimp only
  have h := isPrefixOf_append_self (cleanedSegs root) []
  rw [List.append_nil] at h
  rw [if_pos h, List.drop_length]
  rfl

/-! ## Theorems: shared engine lemmas -/

theorem readFile_file (root name : String) (fs : FsNode) (c : List Nat) (offset size : Int)
    (hr : isRooted root.data = true) (hn : isRooted name.data = true)
    (hf : fsLookup fs ((cleanedSegs name).map String.mk) = some (.file c)) :
    readFile ⟨root⟩ fs name offset size =
      if offset < 0 ∨ offset > (c.length : Int) then
        .error (errorDto errInvalidParameterValue ("offset (" ++ toString offset ++ ")"))
      else if size ≤ 0 ∨ size > (c.length : Int) then
        .error (errorDto errInvalidParameterValue ("size (" ++ toString size ++ ")"))
      else
        .ok (base64EncodeGroups ((c.drop offset.toNat).take
          (if offset + size > (c.length : Int) then (c.length : Int) - offset else size).toNat)) := by
  unfold readFile
  dsimp only
  rw [resolvePath_prepare root name hr hn]
  dsimp only
  rw [hf]

theorem deleteChildrenLoop_clears (root : String) (hr : isRooted root.data = true) :
    ∀ es : List (String × FsNode), (∀ e ∈ es, validEntryName e.1 = true) →
      deleteChildrenLoop ⟨root⟩ (.dir es) es = (.dir [], none) := by
  intro es
  induction es with
  | nil => intro _; rfl
  | cons e rest ih =>
    intro hv
    obtain ⟨cname, cnode⟩ := e
    obtain ⟨hplain, hslash⟩ := validEntryName_plain cname (hv (cname, cnode) (List.mem_cons_self ..))
    have hres : resolvePath ⟨root⟩ (prepareAbsolutePath ⟨root⟩ cname) = some [cname] :=
      resolvePath_prepare_basename root cname hr hplain hslash
    have hrest : ∀ e ∈ rest, validEntryName e.1 = true :=
      fun e he => hv e (List.mem_cons_of_mem _ he)
    cases cnode with
    | dir ces =>
      simp only [deleteChildrenLoop]
      rw [hres]
      dsimp only
      rw [show fsRemoveAll (.dir ((cname, FsNode.dir ces) :: rest)) [cname]
          = some (.dir rest) from by simp [fsRemoveAll, eraseEntry]]
      exact ih hrest
    | file c =>
      simp only [deleteChildrenLoop]
      rw [hres]
      dsimp only
      rw [show fsRemove (.dir ((cname, FsNode.file c) :: rest)) [cname]
          = some (.dir rest) from by simp [fsRemove, findEntry, removeOk, eraseEntry]]
      exact ih hrest

/-! ## Theorems: the claims -/

/-- C1, counterexample: the claim quantifies over every client-supplied name
string; for the root directory `/data` and the name `..` (a `..` segment with
no leading separator) the resolver produces `/` — the parent of the root, not
a descendant of it.  `filepath.Clean` keeps a leading `..` of a relative
path, and the subsequent `filepath.Join` lets it climb out of the root. -/
theorem C1_escape_counterexample :
    prepareAbsolutePath ⟨"/data"⟩ ".." = "/"
      ∧ isDescendantOrEqual "/data" (prepareAbsolutePath ⟨"/data"⟩ "..") = false :=
  ⟨rfl, rfl⟩

/-- C1, amended: for every absolute (slash-prefixed) root directory and every
slash-prefixed name — the only names the transport layer ever passes to the
resolver — the path produced by `prepareAbsolutePath` is a descendant of, or
equal to, the root directory, whatever `..` segments or redundant separators
the name contains. -/
theorem C1_containment (root name : String) (hr : isRooted root.data = true)
    (hn : isRooted name.data = true) :
    isDescendantOrEqual root (prepareAbsolutePath ⟨root⟩ name) = true := by
  unfold isDescendantOrEqual
  rw [isRooted_prepare root name hr hn, hr, cleanedSegs_prepare root name hr hn,
    isPrefixOf_append_self]
  rfl

/-- C1, witness: a name stuffed with `..` segments still resolves into the
root's subtree (here, to the root itself). -/
theorem C1_containment_witness :
    isDescendantOrEqual "/data" (prepareAbsolutePath ⟨"/data"⟩ "/a/../../..") = true :=
  C1_containment "/data" "/a/../../.." rfl rfl

/-- C2: `deleteDirectory` with `all=true` resolves each child basename against
the ROOT directory (`prepareAbsolutePath(cfg, fileInfo.Name())`), not against
the directory being deleted.  Recursively deleting `/sub`, whose only child is
the file `x`, attempts to remove `<root>/x` — which does not exist — so the
call fails with `deleting file failed` (detail `/data/x`) and no child of
`/sub` is removed; the claim's removal of the enumerated children never
happens for a non-root target. -/
theorem C2_wrong_child_path :
    deleteDirectory ⟨"/data"⟩ (.dir [("sub", .dir [("x", .file [1, 2, 3])])]) "/sub" true
      = (.dir [("sub", .dir [("x", .file [1, 2, 3])])],
         .error ⟨"400", "10923", "deleting file failed", "/data/x"⟩)
      ∧ prepareAbsolutePath ⟨"/data"⟩ "x" = "/data/x" :=
  ⟨rfl, rfl⟩

/-- C3: `fileWrite` opens with `O_CREATE|O_WRONLY` and no `O_TRUNC`, so an
existing file is NOT truncated: writing the 2-byte body `xy` (base64 `eHk=`)
over an existing 6-byte file `ABCDEF` leaves content `xyCDEF` and returns
size 6 — bytes of the previous content remain and the file does not equal the
decoded request body. -/
theorem C3_write_does_not_truncate :
    fileWrite ⟨"/data"⟩ (.dir [("f", .file [65, 66, 67, 68, 69, 70])]) "/f" "eHk=".data
      = (.dir [("f", .file [120, 121, 67, 68, 69, 70])],
         .ok ⟨some "/f", some 6, none, none⟩)
      ∧ base64Decode "eHk=".data = [120, 121] :=
  ⟨rfl, rfl⟩

/-- C4: the bounded read never Closes its base64 encoder, so the final
partial block of the window is silently dropped: after writing the bytes of
`hi` (104, 105) to a fresh file, `read(offset=0, size=2)` succeeds but emits
an empty stream, which decodes to `[]`, not to the original bytes — the
write/read pair does not round-trip. -/
theorem C4_roundtrip_truncated :
    fileWrite ⟨"/data"⟩ (.dir []) "/f" (base64Encode [104, 105])
      = (.dir [("f", .file [104, 105])], .ok ⟨some "/f", some 2, none, none⟩)
      ∧ readFile ⟨"/data"⟩ (.dir [("f", .file [104, 105])]) "/f" 0 2 = .ok []
      ∧ base64Decode [] ≠ [104, 105] :=
  ⟨rfl, rfl, by decide⟩

/-- C5, counterexample: on a 10-byte file, `read(offset=5, size=1000)` does
not succeed: `size` is validated against `0 < size <= fileSize` BEFORE any
clamping, so 1000 is rejected with `InvalidParameterValue` (detail
`size (1000)`) and nothing is returned. -/
theorem C5_size_overflow_rejected :
    readFile ⟨"/data"⟩ (.dir [("f", .file [0, 1, 2, 3, 4, 5, 6, 7, 8, 9])]) "/f" 5 1000
      = .error ⟨"400", "10901", "invalid parameter value", "size (1000)"⟩ :=
  rfl

/-- C5, amended: clamping applies only to sizes already within
`0 < size <= fileSize`.  On a 10-byte file, `read(offset=5, size=10)`
succeeds with no error, the window is clamped to the last
`fileSize - offset = 5` bytes, and the emitted stream is the base64 encoding
of that window's complete 3-byte groups (its trailing 2 bytes stay in the
never-flushed encoder). -/
theorem C5_clamped_read (c : List Nat) (h : c.length = 10) :
    readFile ⟨"/data"⟩ (.dir [("f", .file c)]) "/f" 5 10
      = .ok (base64EncodeGroups ((c.drop 5).take 5))
      ∧ (c.drop 5).length = 5 := by
  have hf : fsLookup (.dir [("f", .file c)]) ((cleanedSegs "/f").map String.mk)
      = some (.file c) := rfl
  have := readFile_file "/data" "/f" (.dir [("f", .file c)]) c 5 10 rfl rfl hf
  rw [this, h]
  norm_num
  exact ⟨rfl, by omega⟩

/-- C5, witness for the amended claim at a concrete 10-byte file. -/
theorem C5_clamped_read_witness :
    readFile ⟨"/data"⟩ (.dir [("f", .file [0, 1, 2, 3, 4, 5, 6, 7, 8, 9])]) "/f" 5 10
      = .ok (base64EncodeGroups [5, 6, 7, 8, 9]) :=
  (C5_clamped_read [0, 1, 2, 3, 4, 5, 6, 7, 8, 9] rfl).1

/-- C6: for an existing regular file, the bounded read returns
`InvalidParameterValue` exactly when `offset` violates
`0 <= offset <= fileSize` or `size` violates `0 < size <= fileSize`; when both
bounds hold and `offset + size` exceeds the file size, the size is silently
clamped to `fileSize - offset` — the read succeeds with no error and emits
(through the unflushed encoder) exactly the window from `offset` to the end
of the file. -/
theorem C6_read_validation (root name : String) (fs : FsNode) (c : List Nat)
    (offset size : Int)
    (hr : isRooted root.data = true) (hn : isRooted name.data = true)
    (hf : fsLookup fs ((cleanedSegs name).map String.mk) = some (.file c)) :
    (isInvalidParameterError (readFile ⟨root⟩ fs name offset size) = true
      ↔ (offset < 0 ∨ offset > (c.length : Int) ∨ size ≤ 0 ∨ size > (c.length : Int)))
    ∧ (0 ≤ offset → offset ≤ (c.length : Int) → 0 < size → size ≤ (c.length : Int) →
        (c.length : Int) < offset + size →
        readFile ⟨root⟩ fs name offset size
          = .ok (base64EncodeGroups (c.drop offset.toNat))) := by
  rw [readFile_file root name fs c offset size hr hn hf]
  constructor
  · by_cases h1 : offset < 0 ∨ offset > (c.length : Int)
    · rw [if_pos h1]
      simp only [isInvalidParameterError, errorDto, errInvalidParameterValue, beq_self_eq_true]
      tauto
    · rw [if_neg h1]
      by_cases h2 : size ≤ 0 ∨ size > (c.length : Int)
      · rw [if_pos h2]
        simp only [isInvalidParameterError, errorDto, errInvalidParameterValue, beq_self_eq_true]
        tauto
      · rw [if_neg h2]
        simp only [isInvalidParameterError]
        constructor
        · intro h; exact absurd h (by simp)
        · intro h; omega
  · intro ho1 ho2 hs1 hs2 hclamp
    rw [if_neg (by omega), if_neg (by omega), if_pos (by omega)]
    congr 1
    congr 1
    refine List.take_of_length_le ?_
    rw [List.length_drop]
    omega

/-- C6, witness: a concrete in-bounds read whose `offset + size` overruns the
end of a 4-byte file succeeds and is clamped (here `offset=2, size=3` on 4
bytes yields the last 2 bytes), while `offset=-1` is an
`InvalidParameterValue`. -/
theorem C6_read_validation_witness :
    readFile ⟨"/data"⟩ (.dir [("f", .file [7, 8, 9, 10])]) "/f" 2 3
      = .ok (base64EncodeGroups [9, 10])
    ∧ isInvalidParameterError
        (readFile ⟨"/data"⟩ (.dir [("f", .file [7, 8, 9, 10])]) "/f" (-1) 2) = true :=
  ⟨(C6_read_validation "/data" "/f" (.dir [("f", .file [7, 8, 9, 10])]) [7, 8, 9, 10]
      2 3 rfl rfl rfl).2 (by norm_num) (by norm_num) (by norm_num) (by norm_num) (by norm_num),
   (C6_read_validation "/data" "/f" (.dir [("f", .file [7, 8, 9, 10])]) [7, 8, 9, 10]
      (-1) 2 rfl rfl rfl).1.mpr (by norm_num)⟩

/-- C7: recursive delete of a name resolving to the root directory removes
every child of the root (the buggy basename re-anchoring is harmless exactly
there) but never removes the root node itself: the call returns a Directory
named with the root symbol `/`, the resulting tree is an empty root, and a
subsequent `directoryContent(root, "/")` succeeds listing zero entries. -/
theorem C7_root_recursive_delete (root : String) (es : List (String × FsNode))
    (hr : isRooted root.data = true) (hclean : goClean root = root)
    (hv : ∀ e ∈ es, validEntryName e.1 = true) :
    deleteDirectory ⟨root⟩ (.dir es) "/" true = (.dir [], .ok (.mk RootSymbol [] []))
      ∧ directoryContent ⟨root⟩ (.dir []) "/" = .ok (.mk RootSymbol [] []) := by
  have hfull : prepareAbsolutePath ⟨root⟩ "/" = root := prepare_root_slash root hr hclean
  have hres : resolvePath ⟨root⟩ root = some [] := resolvePath_self root
  constructor
  · unfold deleteDirectory
    simp only [hfull, hres, fsReadDir, fsLookup, deleteChildrenLoop_clears root hr es hv,
      if_pos, reduceIte]
  · unfold directoryContent
    simp only [hfull, hres, fsLookup, contentDirs, contentFiles, if_pos, reduceIte]

/-- C7, witness: recursively deleting `/` in a root holding a subdirectory
(itself nonempty) and a file clears the root and keeps the root node. -/
theorem C7_root_recursive_delete_witness :
    deleteDirectory ⟨"/data"⟩
        (.dir [("a", .dir [("z", .file [1])]), ("b", .file [2, 3])]) "/" true
      = (.dir [], .ok (.mk RootSymbol [] []))
    ∧ directoryContent ⟨"/data"⟩ (.dir []) "/" = .ok (.mk RootSymbol [] []) :=
  C7_root_recursive_delete "/data"
    [("a", .dir [("z", .file [1])]), ("b", .file [2, 3])] rfl rfl (by decide)

/-- C8: `fileExists` never errors on an absent path — it answers
`{name, exists: false}`; on an existing regular file it answers
`{name, size, exists: true}`; on a directory it answers the `NotAFile`
error. -/
theorem C8_exists_trichotomy (root name : String) (fs : FsNode)
    (hr : isRooted root.data = true) (hn : isRooted name.data = true) :
    (fsLookup fs ((cleanedSegs name).map String.mk) = none →
      fileExists ⟨root⟩ fs name = .ok ⟨some name, none, none, some false⟩)
    ∧ (∀ c, fsLookup fs ((cleanedSegs name).map String.mk) = some (.file c) →
      fileExists ⟨root⟩ fs name = .ok ⟨some name, some c.length, none, some true⟩)
    ∧ (∀ es, fsLookup fs ((cleanedSegs name).map String.mk) = some (.dir es) →
      fileExists ⟨root⟩ fs name = .error (errorDto errNotAFile name)) := by
  have hres := resolvePath_prepare root name hr hn
  refine ⟨fun h => ?_, fun c h => ?_, fun es h => ?_⟩ <;>
    · unfold fileExists
      dsimp only
      rw [hres]
      dsimp only
      rw [h]

/-- C8, witness: the three answers at concrete inputs — absent path, regular
file, directory. -/
theorem C8_exists_trichotomy_witness :
    fileExists ⟨"/data"⟩ (.dir [("d", .dir []), ("f", .file [5])]) "/ghost"
      = .ok ⟨some "/ghost", none, none, some false⟩
    ∧ fileExists ⟨"/data"⟩ (.dir [("d", .dir []), ("f", .file [5])]) "/f"
      = .ok ⟨some "/f", some 1, none, some true⟩
    ∧ fileExists ⟨"/data"⟩ (.dir [("d", .dir []), ("f", .file [5])]) "/d"
      = .error (errorDto errNotAFile "/d") :=
  ⟨(C8_exists_trichotomy "/data" "/ghost" (.dir [("d", .dir []), ("f", .file [5])])
      rfl rfl).1 rfl,
   (C8_exists_trichotomy "/data" "/f" (.dir [("d", .dir []), ("f", .file [5])])
      rfl rfl).2.1 [5] rfl,
   (C8_exists_trichotomy "/data" "/d" (.dir [("d", .dir []), ("f", .file [5])])
      rfl rfl).2.2 [] rfl⟩

/-- C9: `directoryList` emits only directory paths relative to the resolved
start, in the order the walk visits them, and the first element is always
`/`: concretely, in an otherwise-empty root, `create("/a/b", recursive=true)`
succeeds and `list(root, "/")` returns `["/", "/a", "/a/b"]` in top-down
order; and every successful `directoryList` answer has head `/`. -/
theorem C9_list_walk_order :
    (createDirectory ⟨"/data"⟩ (.dir []) "/a/b" true
      = (.dir [("a", .dir [("b", .dir [])])], .ok (.mk "b" [] [])))
    ∧ directoryList ⟨"/data"⟩ (.dir [("a", .dir [("b", .dir [])])]) "/"
      = .ok ["/", "/a", "/a/b"]
    ∧ ∀ (cfg : Configuration) (fs : FsNode) (nm : String) (l : List String),
        directoryList cfg fs nm = .ok l → l.head? = some "/" := by
  refine ⟨rfl, ?_, ?_⟩
  · have hw : walkDirs (.dir [("a", .dir [("b", .dir [])])]) [] = [["a"], ["a", "b"]] := by
      simp [walkDirs]
    show Except.ok ("/" :: (walkDirs (.dir [("a", .dir [("b", .dir [])])]) []).map renderRel)
        = .ok ["/", "/a", "/a/b"]
    rw [hw]
    rfl
  · intro cfg fs nm l h
    unfold directoryList at h
    dsimp only at h
    cases hres : resolvePath cfg (prepareAbsolutePath cfg nm) with
    | none => rw [hres] at h; exact absurd h (by simp)
    | some segs =>
      rw [hres] at h
      dsimp only at h
      cases hlk : fsLookup fs segs with
      | none => rw [hlk] at h; exact absurd h (by simp)
      | some node =>
        rw [hlk] at h
        dsimp only at h
        rw [show l = "/" :: (walkDirs node []).map renderRel from (Except.ok.inj h).symm]
        rfl

/-- C9, witness: the head of the concrete listing is `/`. -/
theorem C9_list_walk_order_witness :
    (["/", "/a", "/a/b"] : List String).head? = some "/" :=
  C9_list_walk_order.2.2 ⟨"/data"⟩ (.dir [("a", .dir [("b", .dir [])])]) "/"
    ["/", "/a", "/a/b"] C9_list_walk_order.2.1

/-- C10: the shared read on an existing empty regular file always fails with
`ReadingFileFailed`: the content-type sniffing `Read` into the 512-byte
buffer hits end-of-file immediately (a Go `File.Read` on an empty file
returns `io.EOF`), and the error branch fires before any content or header is
streamed. -/
theorem C10_shared_read_empty_file (root name : String) (fs : FsNode)
    (hr : isRooted root.data = true) (hn : isRooted name.data = true)
    (hf : fsLookup fs ((cleanedSegs name).map String.mk) = some (.file [])) :
    writeSharedFileContent ⟨root⟩ fs name = .error (errorDto errReadingFileFailed name) := by
  unfold writeSharedFileContent
  dsimp only
  rw [resolvePath_prepare root name hr hn]
  dsimp only
  rw [hf]
  rfl

/-- C10, witness: the shared read of a concrete empty file errors. -/
theorem C10_shared_read_empty_file_witness :
    writeSharedFileContent ⟨"/data"⟩ (.dir [("e", .file [])]) "/e"
      = .error (errorDto errReadingFileFailed "/e") :=
  C10_shared_read_empty_file "/data" "/e" (.dir [("e", .file [])]) rfl rfl rfl
